import Mathlib

/-!
# Verification of the TinyDataTable data-resolution pipeline

Shallow embedding of the data-resolution core of `src/TinyDataTable.js`:
the `LocalDataSource` query pipeline (filter evaluation, full-text search,
multi-key stable sort, paging), the `AjaxLoadOnceDataSource` load-once
behaviour, the draw sequencing / stale-response suppression of
`TinyDataTable.draw`, its error-handling `catch` clause, the page-bound
behaviour of the query-state mutators, and the child-row expansion logic.

Modelling conventions:
* JavaScript values occurring in rows are modelled by `JVal`
  (null/undefined collapse to `JVal.null`; a missing object property reads
  as `JVal.null`, matching the `v == null` tests in the source).
* JS numbers are modelled as `Int`.  `Number(string)` coercion is modelled
  on the integer-literal subset of the JS grammar (`jsNumberParse`);
  `Date.parse` is modelled on the `YYYY-MM-DD` ISO subset for dates at or
  after the epoch (`jsDateParse`), returning UTC milliseconds;
  `String.prototype.localeCompare` is modelled as code-point lexicographic
  comparison (`cmpStr`).  None of the theorems below depends on the exact
  extent of these partial grammars, only on the classification structure
  the source builds on top of them.
* `Array.prototype.sort` is modelled by a stable insertion sort
  (`insSorted`).  ECMAScript requires `sort` to be stable and leaves the
  output order implementation-defined when the comparator is inconsistent
  (and `getFilteredRows`' comparator is inconsistent on mixed numeric/date
  classifications, see `local_sort_stability_claim_fails`); `insSorted` is
  therefore one conformant resolution of that freedom.  The only theorem
  below about the order the sort stage produces, `local_sort_stable`, is
  conditioned on the comparator being consistent on the rows at hand:
  under that hypothesis every conformant implementation returns the same
  output, and the theorem's proof uses nothing about the output beyond its
  being sorted by the comparator, so its truth does not depend on the
  resolution chosen here.
* Caller-supplied renderer functions (`col.render`, reached through
  `_renderValue`) are modelled as total functions `phase → row → JVal`;
  the `try/catch` around renderer invocation makes a throwing renderer
  equivalent to one returning null.
-/

/-- A JavaScript primitive value as it occurs in row cells, filter states
and search/sort resolution.  `null` also stands for `undefined`. -/
inductive JVal : Type where
  | null : JVal
  | num  : Int → JVal
  | str  : String → JVal
  | bool : Bool → JVal
deriving DecidableEq, Repr

/-- JS `String(v)` coercion for the non-null values the pipeline
stringifies (`String(v)` in `getFilteredRows`). -/
def jsString : JVal → String
  | .null => "null"
  | .num n => toString n
  | .str s => s
  | .bool b => if b then "true" else "false"

/-- JS truthiness of a `JVal` (`!value` tests in the filter code). -/
def jsTruthy : JVal → Bool
  | .null => false
  | .num n => n != 0
  | .str s => s != ""
  | .bool b => b

/-- `q.isPrefixOf`-based substring test on char lists, auxiliary for
`jsIncludes`. -/
def includesAux (q : List Char) : List Char → Bool
  | [] => q.isEmpty
  | c :: t => q.isPrefixOf (c :: t) || includesAux q t

/-- JS `haystack.indexOf(needle) !== -1` (substring containment). -/
def jsIncludes (hay needle : String) : Bool :=
  includesAux needle.data hay.data

/-- The regex replacement `replace(/<[^>]*>/g, '')` on a char list, as a
one-pass scan: outside a tag (`pending = none`) a `'<'` opens a tag,
buffering what it reads; inside a tag the first `'>'` discards the whole
buffered tag; a tag still open at the end of input was never matched by
the regex and its buffered characters are kept verbatim. -/
def stripTagsAux : List Char → Option (List Char) → List Char
  | [], none => []
  | [], some pending => pending.reverse
  | c :: t, none =>
    if c = '<' then stripTagsAux t (some [c])
    else c :: stripTagsAux t none
  | c :: t, some pending =>
    if c = '>' then stripTagsAux t none
    else stripTagsAux t (some (c :: pending))

/-- `String(v).replace(/<[^>]*>/g, '')` from the sort-key builder. -/
def stripTags (s : String) : String :=
  ⟨stripTagsAux s.data none⟩

/-- JS `String.prototype.trim` on the char-list representation. -/
def jsTrim (s : String) : String :=
  ⟨((s.data.dropWhile Char.isWhitespace).reverse.dropWhile Char.isWhitespace).reverse⟩

/-- JS `String.prototype.toLowerCase` (ASCII case folding). -/
def jsToLower (s : String) : String :=
  ⟨s.data.map Char.toLower⟩

/-- All-digit char list to its numeric value; `none` on the empty list or
any non-digit. -/
def digitsToNat : List Char → Option Nat
  | [] => none
  | l =>
    if l.all Char.isDigit then
      some (l.foldl (fun acc c => acc * 10 + (c.toNat - 48)) 0)
    else
      none

/-- JS `Number(string)` coercion, restricted to the integer-literal
subset of the grammar: surrounding whitespace is trimmed, the empty (or
all-whitespace) string coerces to `0`, an optional sign is followed by
decimal digits; anything else is NaN (`none`). -/
def jsNumberParse (s : String) : Option Int :=
  let t := jsTrim s
  if t = "" then some 0
  else
    match t.data with
    | '-' :: ds => (digitsToNat ds).map (fun n => -(n : Int))
    | '+' :: ds => (digitsToNat ds).map (fun n => (n : Int))
    | ds => (digitsToNat ds).map (fun n => (n : Int))

/-- Gregorian leap year. -/
def isLeapYear (y : Nat) : Bool :=
  (y % 4 = 0 && y % 100 ≠ 0) || y % 400 = 0

/-- Days in a month of a given year (month is 1-based). -/
def daysInMonth (y m : Nat) : Nat :=
  if m = 2 then (if isLeapYear y then 29 else 28)
  else if m = 4 ∨ m = 6 ∨ m = 9 ∨ m = 11 then 30
  else 31

/-- Days from 1970-01-01 (the epoch) to the given civil date (valid for
years ≥ 1970). -/
def daysFromEpoch (y m d : Nat) : Nat :=
  (List.range (y - 1970)).foldl (fun acc i => acc + (if isLeapYear (1970 + i) then 366 else 365)) 0
    + (List.range (m - 1)).foldl (fun acc i => acc + daysInMonth y (i + 1)) 0
    + (d - 1)

/-- Split a char list on a separator character. -/
def splitOnChar (sep : Char) (l : List Char) : List (List Char) :=
  l.foldr
    (fun c acc =>
      match acc with
      | [] => if c = sep then [[], []] else [[c]]
      | g :: gs => if c = sep then [] :: g :: gs else (c :: g) :: gs)
    []

/-- JS `Date.parse(string)`, restricted to the `YYYY-MM-DD` ISO date-only
subset for dates at or after the epoch; yields UTC milliseconds of
midnight of that day, `NaN` (`none`) otherwise. -/
def jsDateParse (s : String) : Option Int :=
  match splitOnChar '-' s.data with
  | [ys, ms, ds] =>
    if ys.length = 4 ∧ ms.length = 2 ∧ ds.length = 2 then
      match digitsToNat ys, digitsToNat ms, digitsToNat ds with
      | some y, some m, some d =>
        if 1970 ≤ y ∧ 1 ≤ m ∧ m ≤ 12 ∧ 1 ≤ d ∧ d ≤ daysInMonth y m then
          some ((daysFromEpoch y m d : Int) * 86400000)
        else none
      | _, _, _ => none
    else none
  | _ => none

/-- Code-point lexicographic three-way comparison of char lists,
auxiliary for `cmpStr`. -/
def cmpCharList : List Char → List Char → Int
  | [], [] => 0
  | [], _ :: _ => -1
  | _ :: _, [] => 1
  | a :: as, b :: bs =>
    if a.toNat < b.toNat then -1
    else if b.toNat < a.toNat then 1
    else cmpCharList as bs

/-- `String.prototype.localeCompare` modelled as code-point lexicographic
comparison returning a sign. -/
def cmpStr (s t : String) : Int :=
  cmpCharList s.data t.data

/-- A data row: its flat cell mapping, the cell holding the child-row
array (the `childRows.dataKey` slot, `none`/`some []` both read as empty),
and the non-enumerable `__dt_index` grafted on by
`LocalDataSource._attachOriginalIndex` (`none` before first observation).
Child rows are flat cell mappings (child matching is raw-field based). -/
structure Row : Type where
  data : List (String × JVal)
  children : List (List (String × JVal))
  dtIndex : Option Nat
deriving DecidableEq, Repr

/-- Property read `row[key]`; a missing property reads as `JVal.null`
(JS `undefined`, which every `== null` test in the source conflates with
null). -/
def jvGet (cells : List (String × JVal)) (key : String) : JVal :=
  match cells.find? (fun kv => kv.1 = key) with
  | some kv => kv.2
  | none => .null

/-- A column definition, restricted to the fields the data pipeline
reads.  `key = ""` models a falsy (absent) key; `render` models the
column's renderer as reached through `table._renderValue` (a total
function of phase and row; renderer exceptions are caught and yield
null, so a throwing renderer is a renderer returning `JVal.null`). -/
structure Column : Type where
  key : String
  isSyntheticKey : Bool := false
  searchable : Bool := true
  sortable : Bool := true
  visible : Bool := true
  render : Option (String → List (String × JVal) → JVal) := none

/-- A filter definition from `table.filters.items`: its key, its type
(`"bool"` or anything else), and the optional custom predicate
`(row, activeValue, context) → boolean` (the context argument carries
only back-references and is dropped). -/
structure FilterDef : Type where
  key : String
  type : String := ""
  predicate : Option (List (String × JVal) → JVal → Bool) := none

/-- One entry of `state.sortOrders`.  `dir = ""` models an absent
direction (the source falls back over `order.dir || order.direction ||
'asc'`; both properties are collapsed into one field). -/
structure SortOrder : Type where
  key : String
  dir : String := ""

/-- The table state (`this.state`) as far as the data pipeline reads it:
paging, search text, ordered sort specs, the active filter map and the
running total of the last load. -/
structure QueryState : Type where
  page : Nat := 1
  pageSize : Nat := 10
  pagingEnabled : Bool := true
  searchText : String := ""
  sortOrders : List SortOrder := []
  totalRows : Nat := 0
  filters : List (String × JVal) := []

/-- The slice of the owning `TinyDataTable` instance that
`LocalDataSource.getFilteredRows` dereferences through `this.table`:
the filter feature gate and definitions, the child-rows feature gate,
and `_getChildColumnsForParent`'s pre-normalization column choice
(`childRows.getColumns(parentRow)` / `childRows.columns` /
`this.columns`), abstracted as a function of the parent row. -/
structure TableCtx : Type where
  filtersEnabled : Bool := false
  filterDefs : List FilterDef := []
  childEnabled : Bool := false
  childColumnsFor : List (String × JVal) → List Column := fun _ => []

/-- `LocalDataSource`: the in-memory backing array. -/
structure LocalDataSource : Type where
  original : List Row

/-- `_attachOriginalIndex`: give each row its position as `__dt_index`
unless the row already owns one (a row keeps the index of its first
observation). -/
def attachOriginalIndex (rows : List Row) : List Row :=
  rows.mapIdx (fun idx r => if r.dtIndex.isSome then r else { r with dtIndex := some idx })

/-- `LocalDataSource.setData`: copy the array and attach original
indices. -/
def LocalDataSource.setData (data : List Row) : LocalDataSource :=
  ⟨attachOriginalIndex data⟩

/-- The `__dt_index` read in the sort tie-break:
`typeof row.__dt_index === 'number' ? row.__dt_index : 0`. -/
def idxVal (r : Row) : Int :=
  match r.dtIndex with
  | some n => (n : Int)
  | none => 0

/-- Is a filter-state value "active"?
(`v !== undefined && v !== null && v !== '' && v !== false`). -/
def isActiveFilterVal (v : JVal) : Bool :=
  !(v = .null || v = .str "" || v = .bool false)

/-- `hasActiveFilters` from `getFilteredRows`: some key of
`state.filters` holds an active value. -/
def hasActiveFilters (st : QueryState) : Bool :=
  st.filters.any (fun kv => isActiveFilterVal kv.2)

/-- One `for (var key in activeFilters)` iteration of the row filter:
`true` means the row survives this key (including all the `continue`
cases). -/
def rowPassesFilterKey (ctx : TableCtx) (row : Row) (key : String) (value : JVal) : Bool :=
  let fd := ctx.filterDefs.find? (fun f => f.key = key)
  let isBool : Bool := match fd with
    | some f => f.type = "bool"
    | none => false
  -- Disabled boolean or "empty" non-boolean values do not filter.
  if isBool ∧ ¬ jsTruthy value then true
  else if ¬ isBool ∧ (value = .null ∨ value = .str "") then true
  else
    match fd with
    | some f =>
      match f.predicate with
      | some p => p row.data value
      | none =>
        let cellValue := jvGet row.data key
        if isBool then jsTruthy cellValue
        else if cellValue = .null then false
        else jsString cellValue = jsString value
    | none =>
      let cellValue := jvGet row.data key
      if cellValue = .null then false
      else jsString cellValue = jsString value

/-- The filter predicate of `getFilteredRows`: every active-filter key
must pass. -/
def rowPassesFilters (ctx : TableCtx) (st : QueryState) (row : Row) : Bool :=
  st.filters.all (fun kv => rowPassesFilterKey ctx row kv.1 kv.2)

/-- The `getValue(col, row, phase)` helper shared by search and sort:
a real (non-synthetic) key reads the raw field, otherwise a renderer (if
any) supplies the value, otherwise null. -/
def getValue (col : Column) (row : Row) (phase : String) : JVal :=
  if col.key ≠ "" ∧ ¬ col.isSyntheticKey then
    jvGet row.data col.key
  else
    match col.render with
    | some f => f phase row.data
    | none => .null

/-- `_getChildrenForRow`: the child array of a row, `none` when child
rows are disabled or the slot is missing/empty. -/
def getChildrenForRow (ctx : TableCtx) (row : Row) : Option (List (List (String × JVal))) :=
  if ¬ ctx.childEnabled then none
  else if row.children.isEmpty then none
  else some row.children

/-- `_getChildColumnsForParent`: the configured child column choice with
columns hidden by `visible === false` removed. -/
def getChildColumnsForParent (ctx : TableCtx) (parentRow : List (String × JVal)) : List Column :=
  (ctx.childColumnsFor parentRow).filter (fun c => c.visible)

/-- Does one row match the search text?  Parent match over searchable
columns first; otherwise, with child rows enabled, a match of any known
child row on the searchable keyed child columns. -/
def rowMatchesSearch (ctx : TableCtx) (st : QueryState) (searchableCols : List Column)
    (row : Row) : Bool :=
  let q := jsToLower st.searchText
  let parentMatch := searchableCols.any (fun col =>
    let v := getValue col row "search"
    if v = .null then false
    else jsIncludes (jsToLower (jsString v)) q)
  if parentMatch then true
  else if ¬ ctx.childEnabled then false
  else
    match getChildrenForRow ctx row with
    | none => false
    | some children =>
      let childCols := getChildColumnsForParent ctx row.data
      let childSearchableCols := childCols.filter (fun c => c.searchable ∧ c.key ≠ "")
      if childSearchableCols.isEmpty then false
      else
        children.any (fun child =>
          childSearchableCols.any (fun col =>
            let vChild := jvGet child col.key
            if vChild = .null then false
            else jsIncludes (jsToLower (jsString vChild)) q))

/-- A precomputed sort key (`{t, v}` in the Schwartzian transform of
`getFilteredRows`): the null key, or a numeric / date / string
classification of the stringified, tag-stripped resolved value. -/
inductive SKey : Type where
  | nil : SKey
  | num : Int → SKey
  | date : Int → SKey
  | str : String → SKey
deriving DecidableEq, Repr

/-- `String(ka.v)` as used in the differing-classification fallback of
the comparator (the stored `v` is stringified). -/
def SKey.valueString : SKey → String
  | .nil => "null"
  | .num n => toString n
  | .date d => toString d
  | .str s => s

/-- Build one row's sort key for one spec: resolve via `getValue` in the
sort phase, strip tags from the stringified value, then classify by
attempted numeric parse first, date parse second, string otherwise.
A null resolved value gives the null key. -/
def resolveSortKey (col : Column) (row : Row) : SKey :=
  match getValue col row "sort" with
  | .null => .nil
  | v =>
    let s := stripTags (jsString v)
    match jsNumberParse s with
    | some n => .num n
    | none =>
      match jsDateParse s with
      | some d => .date d
      | none => .str s

/-- One resolved sort spec (`{col, dir}`): the matched column and the
direction multiplier. -/
structure SortSpec : Type where
  col : Column
  dir : Int

/-- Build the resolved sort-spec list from `state.sortOrders`: entries
without a key are dropped, the direction string (defaulting to `asc`)
yields the multiplier, and only keys matching a sortable column are
kept. -/
def buildSortSpecs (st : QueryState) (columns : List Column) : List SortSpec :=
  st.sortOrders.foldr
    (fun order acc =>
      if order.key = "" then acc
      else
        let dirStr := if order.dir = "" then "asc" else order.dir
        let dirMult : Int := if jsToLower dirStr = "desc" then -1 else 1
        match columns.find? (fun c => c.sortable ∧ c.key = order.key) with
        | some col => ⟨col, dirMult⟩ :: acc
        | none => acc)
    []

/-- One iteration of the comparator loop for one spec: the returned sign,
with `0` meaning "this spec ties, continue with the next spec" (the
source never returns `0` from inside the loop).  Nulls sort last without
the direction multiplier; equal classifications compare natively; mixed
classifications fall back to comparing the stringified stored values. -/
def specStep (dir : Int) : SKey → SKey → Int
  | .nil, .nil => 0
  | .nil, _ => 1
  | _, .nil => -1
  | .num a, .num b => (a - b) * dir
  | .date a, .date b => (a - b) * dir
  | .str a, .str b => cmpStr a b * dir
  | ka, kb => cmpStr ka.valueString kb.valueString * dir

/-- The comparator loop over the per-spec key pairs (each paired with its
direction multiplier): first non-tie wins. -/
def cmpKeyList : List (Int × SKey) → List (Int × SKey) → Int
  | (d, ka) :: ta, (_, kb) :: tb =>
    let s := specStep d ka kb
    if s = 0 then cmpKeyList ta tb else s
  | _, _ => 0

/-- A row paired with its precomputed `(dir, key)` list (the Schwartzian
transform's `{row, keys}`). -/
structure Keyed : Type where
  row : Row
  keys : List (Int × SKey)

/-- The full sort comparator: per-spec comparison, then the
original-order index ascending as final tie-break. -/
def cmpKeyed (a b : Keyed) : Int :=
  let c := cmpKeyList a.keys b.keys
  if c = 0 then idxVal a.row - idxVal b.row else c

/-- Build the Schwartzian entry for one row. -/
def mkKeyed (specs : List SortSpec) (r : Row) : Keyed :=
  ⟨r, specs.map (fun sp => (sp.dir, resolveSortKey sp.col r))⟩

/-- Insert `x` into `l` directly after the last element `z` of `l` with
`cmp z x ≤ 0` (before everything when there is none): the insertion step
of a stable insertion sort.  This is one ECMAScript-conformant resolution
of `Array.prototype.sort` (stability is required; the order is
implementation-defined for inconsistent comparators, so theorems about
the produced order are only asserted under comparator-consistency
hypotheses, where all conformant resolutions coincide). -/
def insSorted (cmp : α → α → Int) (x : α) : List α → List α
  | [] => [x]
  | y :: t =>
    if t.any (fun z => cmp z x ≤ 0) then y :: insSorted cmp x t
    else if cmp y x ≤ 0 then y :: x :: t
    else x :: y :: t

/-- Stable insertion sort over a comparator, processing the input left to
right; models `Array.prototype.sort` under the caveat documented at
`insSorted`. -/
def sortByCmp (cmp : α → α → Int) (l : List α) : List α :=
  l.foldl (fun acc x => insSorted cmp x acc) []

/-- The sort stage of `getFilteredRows`: precompute keys per row, sort
stably by the comparator, then project the rows back out. -/
def sortRows (specs : List SortSpec) (rows : List Row) : List Row :=
  (sortByCmp cmpKeyed (rows.map (mkKeyed specs))).map (fun k => k.row)

/-- `state.searchText && state.searchText.trim() !== '' &&
searchableCols.length > 0`: the guard of the search stage. -/
def searchActive (st : QueryState) (searchableCols : List Column) : Bool :=
  st.searchText ≠ "" ∧ jsTrim st.searchText ≠ "" ∧ ¬ searchableCols.isEmpty

/-- The filter stage of `getFilteredRows`: applied only when some filter
value is active and the table's filter feature is enabled. -/
def filterStage (st : QueryState) (ctx : TableCtx) (rows : List Row) : List Row :=
  if hasActiveFilters st ∧ ctx.filtersEnabled then
    rows.filter (rowPassesFilters ctx st)
  else rows

/-- The search stage of `getFilteredRows`: applied only when the search
guard holds for the searchable columns. -/
def searchStage (st : QueryState) (columns : List Column) (ctx : TableCtx)
    (rows : List Row) : List Row :=
  let searchableCols := columns.filter (fun c => c.searchable)
  if searchActive st searchableCols then
    rows.filter (rowMatchesSearch ctx st searchableCols)
  else rows

/-- `LocalDataSource.getFilteredRows`: column filters (when configured,
enabled and active), then search, then the multi-key stable sort;
no paging. -/
def LocalDataSource.getFilteredRows (src : LocalDataSource) (st : QueryState)
    (columns : List Column) (ctx : TableCtx) : List Row :=
  let rows2 := searchStage st columns ctx (filterStage st ctx src.original)
  let specs := buildSortSpecs st columns
  if specs.isEmpty then rows2 else sortRows specs rows2

/-- The `{rows, total}` shape resolved by every data source. -/
structure LoadResult : Type where
  rows : List Row
  total : Nat
deriving DecidableEq, Repr

/-- `LocalDataSource.load`: filtered rows, total before paging, then the
paging slice. -/
def LocalDataSource.load (src : LocalDataSource) (st : QueryState)
    (columns : List Column) (ctx : TableCtx) : LoadResult :=
  let rows := src.getFilteredRows st columns ctx
  let total := rows.length
  let paged :=
    if st.pagingEnabled then (rows.drop ((st.page - 1) * st.pageSize)).take st.pageSize
    else rows
  ⟨paged, total⟩

/-- `AjaxLoadOnceDataSource`: a Local store plus the `_loaded` flag.
`serverRows` models the row list the outbound fetch resolves to (after
the `transform` / bare-array / `json.data` normalization of the default
path, or the custom `ajax.fetch` hook's result). -/
structure AjaxLoadOnceDataSource : Type where
  store : LocalDataSource
  loaded : Bool
  serverRows : List Row

/-- The outcome of one `AjaxLoadOnceDataSource.load` call: the resolved
result, the data source as left behind, and the number of outbound
fetches the call performed. -/
structure LoadOnceOutcome : Type where
  result : LoadResult
  src : AjaxLoadOnceDataSource
  fetches : Nat

/-- `AjaxLoadOnceDataSource.refresh`: reset the loaded flag so the next
load re-fetches. -/
def AjaxLoadOnceDataSource.refresh (src : AjaxLoadOnceDataSource) : AjaxLoadOnceDataSource :=
  { src with loaded := false }

/-- `AjaxLoadOnceDataSource.load`: once loaded, plain
`LocalDataSource.load`; on the first call, one outbound fetch whose rows
become the Local backing store (`setData`), the loaded flag is set, and
the call resolves with `LocalDataSource.load` over the new store. -/
def AjaxLoadOnceDataSource.load (src : AjaxLoadOnceDataSource) (st : QueryState)
    (columns : List Column) (ctx : TableCtx) : LoadOnceOutcome :=
  if src.loaded then
    ⟨src.store.load st columns ctx, src, 0⟩
  else
    let store' := LocalDataSource.setData src.serverRows
    ⟨store'.load st columns ctx, { src with store := store', loaded := true }, 1⟩

/-- The table-level state `TinyDataTable.draw` and its `onLoad`
continuation manipulate: the monotonic draw sequence counter
(`this._internals.drawSeq`), the stored running total
(`this.state.totalRows`), the rendered body rows (`this._lastPageRows` /
the `<tbody>` contents), and which draw's result is currently rendered
(`none` before any commit). -/
structure DrawModel : Type where
  drawSeq : Nat
  totalRows : Nat
  body : List Row
  renderedDraw : Option Nat
deriving DecidableEq, Repr

/-- The start of `draw()`: `const drawId = ++this._internals.drawSeq`.
The captured `drawId` of the new draw is the incremented counter. -/
def startDraw (s : DrawModel) : DrawModel :=
  { s with drawSeq := s.drawSeq + 1 }

/-- The `onLoad` continuation of `draw()` applied to a resolved result:
in Ajax mode a result whose captured `drawId` no longer equals the
current sequence counter is discarded without storing or rendering;
otherwise the total is stored and the body rendered. -/
def onLoadDraw (isAjax : Bool) (drawId : Nat) (result : LoadResult) (s : DrawModel) : DrawModel :=
  if isAjax ∧ drawId ≠ s.drawSeq then s
  else { s with totalRows := result.total, body := result.rows, renderedDraw := some drawId }

/-- A JS error as dispatched by the `catch` clause of `draw()`: its
`name`, optional HTTP `status` and optional response `body`. -/
structure JsError : Type where
  name : String
  status : Option Int := none
  body : Option String := none

/-- Error events emitted by the `catch` clause of `draw()`. -/
inductive DrawErrorEvent : Type where
  | unauthorized : DrawErrorEvent
  | server : DrawErrorEvent
  | http : Int → DrawErrorEvent
  | generic : DrawErrorEvent
deriving DecidableEq, Repr

/-- What the `catch` clause of `draw()` does with an error. -/
structure DrawErrorOutcome : Type where
  swallowed : Bool
  hookCalled : Bool
  logged : Bool
  events : List DrawErrorEvent
  rethrown : Bool
deriving DecidableEq, Repr

/-- The `catch` clause of `draw()`: an `AbortError` is swallowed
silently (no hook, no log, no event, no rethrow); any other error goes
through the optional `onError` hook (else, except for 401, the console),
is emitted as `error:unauthorized` / `error:server` / `error:http` /
`error` by status, and is re-thrown. -/
def handleDrawError (hasOnErrorHook : Bool) (e : JsError) : DrawErrorOutcome :=
  if e.name = "AbortError" then
    ⟨true, false, false, [], false⟩
  else
    let event :=
      match e.status with
      | some 401 => DrawErrorEvent.unauthorized
      | some 500 => DrawErrorEvent.server
      | some n => DrawErrorEvent.http n
      | none => DrawErrorEvent.generic
    ⟨false, hasOnErrorHook, ¬ hasOnErrorHook ∧ e.status ≠ some 401, [event], true⟩

/-- JS `Math.ceil(totalRows / pageSize)` on naturals (`pageSize > 0`). -/
def jsCeilDiv (total pageSize : Nat) : Nat :=
  (total + pageSize - 1) / pageSize

/-- `goToPage(page)`: no-op when paging is disabled; otherwise clamp the
requested (possibly out-of-range) page into `[1, max(1,
ceil(totalRows/pageSize))]` and store it unless unchanged. -/
def goToPage (st : QueryState) (pagingFeatureEnabled : Bool) (page : Int) : QueryState :=
  if ¬ pagingFeatureEnabled then st
  else
    let maxPage := max 1 (jsCeilDiv st.totalRows st.pageSize)
    let newPage := (min (max 1 page) (maxPage : Int)).toNat
    if newPage = st.page then st
    else { st with page := newPage }

/-- `search(text)`: store the text (empty for falsy input) and reset to
page 1. -/
def searchMut (st : QueryState) (text : String) : QueryState :=
  { st with searchText := text, page := 1 }

/-- `sortBy(key, opts)`: locate a sortable column for the key (else
no-op), cycle the direction none → asc → desc → none, rebuild the sort
orders (single-sort replaces, append toggles in place / appends /
removes), and reset to page 1. -/
def sortBy (st : QueryState) (columns : List Column) (key : String) (append : Bool) :
    QueryState :=
  match columns.find? (fun c => c.sortable ∧ c.key = key) with
  | none => st
  | some _ =>
    let index := st.sortOrders.findIdx? (fun o => o.key = key)
    let currentDir : Option String :=
      match index with
      | none => none
      | some i =>
        match st.sortOrders.get? i with
        | some o => if o.dir = "" then none else some (jsToLower o.dir)
        | none => none
    let nextDir : Option String :=
      match currentDir with
      | none => some "asc"
      | some d => if d = "asc" then some "desc" else none
    let nextOrders :=
      if ¬ append then
        match nextDir with
        | some d => [⟨key, d⟩]
        | none => []
      else
        match index, nextDir with
        | none, some d => st.sortOrders ++ [⟨key, d⟩]
        | none, none => st.sortOrders
        | some i, some d => st.sortOrders.set i ⟨key, d⟩
        | some i, none => st.sortOrders.eraseIdx i
    { st with sortOrders := nextOrders, page := 1 }

/-- Store a value under a key in the filter map (JS object property
assignment). -/
def setFilterVal (filters : List (String × JVal)) (key : String) (v : JVal) :
    List (String × JVal) :=
  if filters.any (fun kv => kv.1 = key) then
    filters.map (fun kv => if kv.1 = key then (key, v) else kv)
  else filters ++ [(key, v)]

/-- The boolean-filter change handler:
`state.filters[key] = !!checked; state.page = 1`. -/
def filterChangeBool (st : QueryState) (key : String) (checked : Bool) : QueryState :=
  { st with filters := setFilterVal st.filters key (.bool checked), page := 1 }

/-- The select-filter change handler:
`state.filters[key] = (v === '' ? null : v); state.page = 1`. -/
def filterChangeSelect (st : QueryState) (key : String) (v : String) : QueryState :=
  { st with
    filters := setFilterVal st.filters key (if v = "" then .null else .str v)
    page := 1 }

/-- The pager's page-size change handler: no-op when the size is
unchanged, else store it and reset to page 1. -/
def pageSizeChange (st : QueryState) (newSize : Nat) : QueryState :=
  if newSize = st.pageSize then st
  else { st with pageSize := newSize, page := 1 }

/-- The caller-supplied `options.childRows` object (the fields the
constructor reads, plus `lazyLoad`, which the README documents as a
supported option). -/
structure ChildRowsOptions : Type where
  enabled : Bool := false
  dataKey : Option String := none
  lazyLoad : Bool := false
  rowId : Option (List (String × JVal) → JVal) := none

/-- The normalized `this.childRows` object built by the constructor
(source lines 1009–1024).  Note: the constructor copies `enabled`,
`dataKey`, `startExpanded`, `rowId`, `toggleOnRowClick`,
`showToggleIcon`, `columns` and `getColumns` — and nothing else; in
particular it creates no `lazyLoad` property. -/
structure ChildRowsConfig : Type where
  enabled : Bool
  dataKey : String
  rowId : Option (List (String × JVal) → JVal)

/-- The constructor's `this.childRows = { ... }` normalization:
`enabled: !!options.childRows?.enabled`,
`dataKey: options.childRows?.dataKey || 'children'`,
`rowId: options.childRows?.rowId || null` — the `lazyLoad` option is
not copied. -/
def normalizeChildRows (o : ChildRowsOptions) : ChildRowsConfig :=
  { enabled := o.enabled
    dataKey :=
      match o.dataKey with
      | some k => if k = "" then "children" else k
      | none => "children"
    rowId := o.rowId }

/-- Reading `this.childRows.lazyLoad`: the normalized object owns no
such property, so the read yields `undefined`, which is falsy in every
`if (cfg.lazyLoad)` test of the source. -/
def ChildRowsConfig.lazyLoad (_ : ChildRowsConfig) : Bool :=
  false

/-- The Ajax-related configuration `_loadLazyChildren` consults:
`this._isAjax` and whether `this.options.ajax?.url` is set. -/
structure AjaxInfo : Type where
  isAjax : Bool
  urlPresent : Bool

/-- The slice of table state that child-row expansion manipulates: the
row cache keyed by row key, and the set of expanded row keys (the
`children` field of a cached `Row` is its `childRows.dataKey` slot;
an empty list models a missing or empty slot, exactly the
`!row[dataKey] || row[dataKey].length === 0` test). -/
structure ChildTableState : Type where
  rowDataByKey : List (String × Row)
  expandedRowKeys : List String
deriving DecidableEq, Repr

/-- Add a key to the expanded set (`Set.prototype.add`). -/
def addExpanded (tbl : ChildTableState) (rowKey : String) : ChildTableState :=
  if tbl.expandedRowKeys.contains rowKey then tbl
  else { tbl with expandedRowKeys := tbl.expandedRowKeys ++ [rowKey] }

/-- `_loadLazyChildren(rowKey)`: resolves the children to store and the
number of outbound child fetches performed.  Every guard failure
(lazyLoad falsy, unknown parent, falsy parent identity, non-Ajax mode,
no URL) resolves `[]` with no fetch; otherwise one fetch against the
child server (modelled as a function of the parent identity). -/
def loadLazyChildren (cfg : ChildRowsConfig) (ajax : AjaxInfo)
    (childServer : JVal → List (List (String × JVal)))
    (tbl : ChildTableState) (rowKey : String) : List (List (String × JVal)) × Nat :=
  if ¬ cfg.lazyLoad then ([], 0)
  else
    match tbl.rowDataByKey.find? (fun kv => kv.1 = rowKey) with
    | none => ([], 0)
    | some kv =>
      let parent := kv.2
      let parentId :=
        match cfg.rowId with
        | some f => f parent.data
        | none => jvGet parent.data "id"
      if ¬ jsTruthy parentId then ([], 0)
      else if ¬ ajax.isAjax ∨ ¬ ajax.urlPresent then ([], 0)
      else (childServer parentId, 1)

/-- Store new children into a cached row's child slot
(`row[dataKey] = children || []`). -/
def storeChildren (tbl : ChildTableState) (rowKey : String)
    (children : List (List (String × JVal))) : ChildTableState :=
  { tbl with
    rowDataByKey := tbl.rowDataByKey.map (fun kv =>
      if kv.1 = rowKey then (kv.1, { kv.2 with children := children }) else kv) }

/-- `expandChildRows(rowKey)`: no-op when child rows are disabled or the
key is falsy; with `lazyLoad` truthy and an empty child slot, mark
expanded, fetch the children lazily, store them and insert the child
rows; otherwise mark expanded and insert.  Returns the new state and the
number of outbound child fetches; `none` models the `TypeError` thrown
when `lazyLoad` is truthy and the row key is unknown
(`row[dataKey]` on `undefined`). -/
def expandChildRows (cfg : ChildRowsConfig) (ajax : AjaxInfo)
    (childServer : JVal → List (List (String × JVal)))
    (tbl : ChildTableState) (rowKey : String) : Option (ChildTableState × Nat) :=
  if ¬ cfg.enabled ∨ rowKey = "" then some (tbl, 0)
  else
    match tbl.rowDataByKey.find? (fun kv => kv.1 = rowKey) with
    | none => if cfg.lazyLoad then none else some (addExpanded tbl rowKey, 0)
    | some kv =>
      if cfg.lazyLoad ∧ kv.2.children.isEmpty then
        let tbl1 := addExpanded tbl rowKey
        let fetched := loadLazyChildren cfg ajax childServer tbl1 rowKey
        some (storeChildren tbl1 rowKey fetched.1, fetched.2)
      else
        some (addExpanded tbl rowKey, 0)

/-- `collapseChildRows(rowKey)`: no-op when disabled, the key is falsy
or the row is not expanded; otherwise remove the key from the expanded
set (and its rendered child rows). -/
def collapseChildRows (cfg : ChildRowsConfig) (tbl : ChildTableState) (rowKey : String) :
    ChildTableState :=
  if ¬ cfg.enabled ∨ rowKey = "" then tbl
  else if ¬ tbl.expandedRowKeys.contains rowKey then tbl
  else { tbl with expandedRowKeys := tbl.expandedRowKeys.filter (fun k => k ≠ rowKey) }

theorem length_insSorted (cmp : α → α → Int) (x : α) (l : List α) :
    (insSorted cmp x l).length = l.length + 1 := by
  induction l with
  | nil => rfl
  | cons y t ih =>
    unfold insSorted
    by_cases h1 : t.any (fun z => cmp z x ≤ 0)
    · simp [h1, ih]
    · by_cases h2 : cmp y x ≤ 0 <;> simp [h1, h2]

theorem length_sortByCmp_aux (cmp : α → α → Int) (l acc : List α) :
    (l.foldl (fun acc x => insSorted cmp x acc) acc).length = acc.length + l.length := by
  induction l generalizing acc with
  | nil => simp
  | cons x t ih =>
    simp only [List.foldl_cons, List.length_cons]
    rw [ih, length_insSorted]
    omega

theorem length_sortByCmp (cmp : α → α → Int) (l : List α) :
    (sortByCmp cmp l).length = l.length := by
  unfold sortByCmp
  rw [length_sortByCmp_aux]
  simp

theorem length_sortRows (specs : List SortSpec) (rows : List Row) :
    (sortRows specs rows).length = rows.length := by
  unfold sortRows
  rw [List.length_map, length_sortByCmp, List.length_map]

/-- C2: on an Ajax table, a draw result carrying a `drawId` that no
longer equals the current draw sequence counter is discarded without
rendering or storing; a result of the current draw commits its rows and
total; in particular, once a newer draw has started, resolving any older
draw leaves the table state untouched. -/
theorem draw_stale_result_suppressed (s : DrawModel) (drawId : Nat) (result : LoadResult) :
    (drawId ≠ s.drawSeq → onLoadDraw true drawId result s = s) ∧
    (drawId = s.drawSeq →
      onLoadDraw true drawId result s =
        { s with totalRows := result.total, body := result.rows, renderedDraw := some drawId }) ∧
    (∀ oldId, oldId ≤ s.drawSeq → onLoadDraw true oldId result (startDraw s) = startDraw s) := by
  refine ⟨fun h => ?_, fun h => ?_, fun oldId h => ?_⟩
  · simp [onLoadDraw, h]
  · simp [onLoadDraw, h]
  · have : oldId ≠ (startDraw s).drawSeq := by
      simp only [startDraw]
      omega
    simp [onLoadDraw, this]

theorem draw_stale_result_suppressed_witness :
    onLoadDraw true 1 ⟨[], 0⟩ (startDraw ⟨1, 7, [], some 1⟩) = startDraw ⟨1, 7, [], some 1⟩ :=
  (draw_stale_result_suppressed ⟨1, 7, [], some 1⟩ 1 ⟨[], 0⟩).2.2 1 (by decide)

/-- C8: the `catch` clause of `draw()` swallows an `AbortError` silently
(no hook, no log, no event, no rethrow); every other error is re-thrown
after being reported through the hook/event system, with HTTP 401 and
500 dispatched to the distinguished `error:unauthorized` and
`error:server` events. -/
theorem draw_error_dispatch (hook : Bool) (e : JsError) :
    (e.name = "AbortError" → handleDrawError hook e = ⟨true, false, false, [], false⟩) ∧
    (e.name ≠ "AbortError" →
      (handleDrawError hook e).rethrown = true ∧
      (handleDrawError hook e).events ≠ [] ∧
      (e.status = some 401 → (handleDrawError hook e).events = [.unauthorized]) ∧
      (e.status = some 500 → (handleDrawError hook e).events = [.server])) := by
  constructor
  · intro h
    simp [handleDrawError, h]
  · intro h
    refine ⟨?_, ?_, fun hs => ?_, fun hs => ?_⟩
    · simp [handleDrawError, h]
    · simp [handleDrawError, h]
    · simp [handleDrawError, h, hs]
    · simp [handleDrawError, h, hs]

theorem draw_error_dispatch_witness :
    (handleDrawError false ⟨"TypeError", some 500, none⟩).rethrown = true ∧
    (handleDrawError false ⟨"TypeError", some 500, none⟩).events = [.server] :=
  ⟨((draw_error_dispatch false ⟨"TypeError", some 500, none⟩).2 (by decide)).1,
    ((draw_error_dispatch false ⟨"TypeError", some 500, none⟩).2 (by decide)).2.2.2 rfl⟩

/-- C4: the load-once source fetches exactly once on its first `load`,
stores the fetched rows as the Local backing store (with original
indices attached) and resolves with Local `load` semantics over them;
once loaded, every `load` fetches nothing and delegates to Local
semantics over the stored data; `refresh()` clears the loaded flag so
that the next `load` fetches again. -/
theorem loadOnce_fetch_once (src : AjaxLoadOnceDataSource) (st : QueryState)
    (cols : List Column) (ctx : TableCtx) :
    (¬ src.loaded →
      (src.load st cols ctx).fetches = 1 ∧
      (src.load st cols ctx).src.store = LocalDataSource.setData src.serverRows ∧
      (src.load st cols ctx).src.loaded = true ∧
      (src.load st cols ctx).result = (LocalDataSource.setData src.serverRows).load st cols ctx) ∧
    (src.loaded →
      (src.load st cols ctx).fetches = 0 ∧
      (src.load st cols ctx).src = src ∧
      (src.load st cols ctx).result = src.store.load st cols ctx) ∧
    src.refresh.loaded = false ∧
    (src.refresh.load st cols ctx).fetches = 1 := by
  refine ⟨fun h => ?_, fun h => ?_, rfl, ?_⟩
  · simp only [AjaxLoadOnceDataSource.load, Bool.not_eq_true] at h ⊢
    simp [h]
  · simp [AjaxLoadOnceDataSource.load, h]
  · simp [AjaxLoadOnceDataSource.load, AjaxLoadOnceDataSource.refresh]

theorem loadOnce_fetch_once_witness :
    (AjaxLoadOnceDataSource.load ⟨⟨[]⟩, false, []⟩ {} [] {}).fetches = 1 ∧
    (AjaxLoadOnceDataSource.load ⟨⟨[]⟩, true, []⟩ {} [] {}).fetches = 0 :=
  ⟨((loadOnce_fetch_once ⟨⟨[]⟩, false, []⟩ {} [] {}).1 (by decide)).1,
    ((loadOnce_fetch_once ⟨⟨[]⟩, true, []⟩ {} [] {}).2.1 rfl).1⟩

/-- C6: in the per-spec comparison of the Local multi-key sort, a row
whose resolved sort value is null or missing compares after every row
with a non-null resolved value, for every direction multiplier: the
comparison returns `1` (respectively `-1`) without applying the
direction. -/
theorem sort_nulls_last (dir : Int) (col : Column) (ra rb : Row)
    (ha : resolveSortKey col ra = SKey.nil) (hb : resolveSortKey col rb ≠ SKey.nil) :
    specStep dir (resolveSortKey col ra) (resolveSortKey col rb) = 1 ∧
    specStep dir (resolveSortKey col rb) (resolveSortKey col ra) = -1 := by
  rw [ha]
  rcases hk : resolveSortKey col rb with _ | n | d | s
  · exact absurd hk hb
  · exact ⟨rfl, rfl⟩
  · exact ⟨rfl, rfl⟩
  · exact ⟨rfl, rfl⟩

theorem sort_nulls_last_witness :
    specStep (-1) (resolveSortKey { key := "age" } ⟨[], [], none⟩)
        (resolveSortKey { key := "age" } ⟨[("age", .num 5)], [], none⟩) = 1 ∧
    specStep (-1) (resolveSortKey { key := "age" } ⟨[("age", .num 5)], [], none⟩)
        (resolveSortKey { key := "age" } ⟨[], [], none⟩) = -1 :=
  sort_nulls_last (-1) { key := "age" } ⟨[], [], none⟩ ⟨[("age", .num 5)], [], none⟩
    (by decide) (by decide)

/-- C10: the Local search stage runs only when the search text is
non-blank and at least one column is searchable; with blank/whitespace
search text, or with every column marked `searchable: false`, a load
sees exactly the pipeline of an empty search — the full filtered and
sorted row set, with no row excluded by search. -/
theorem search_requires_searchable_columns (src : LocalDataSource) (st : QueryState)
    (cols : List Column) (ctx : TableCtx)
    (h : jsTrim st.searchText = "" ∨ ∀ c ∈ cols, c.searchable = false) :
    src.getFilteredRows st cols ctx =
      src.getFilteredRows { st with searchText := "" } cols ctx := by
  have h1 : ∀ X : List Row, searchStage st cols ctx X = X := by
    intro X
    unfold searchStage searchActive
    rcases h with h | h
    · simp [h]
    · have hf : cols.filter (fun c => c.searchable) = [] := by
        rw [List.filter_eq_nil_iff]
        intro c hc
        simp [h c hc]
      simp [hf]
  have h2 : ∀ X : List Row, searchStage { st with searchText := "" } cols ctx X = X := by
    intro X
    unfold searchStage searchActive
    simp
  unfold LocalDataSource.getFilteredRows
  rw [h1, h2]
  rfl

theorem search_requires_searchable_columns_witness :
    LocalDataSource.getFilteredRows ⟨[⟨[("id", .num 1)], [], some 0⟩]⟩
        { searchText := "zz" } [{ key := "id", searchable := false }] {} =
      LocalDataSource.getFilteredRows ⟨[⟨[("id", .num 1)], [], some 0⟩]⟩
        { searchText := "" } [{ key := "id", searchable := false }] {} :=
  search_requires_searchable_columns ⟨[⟨[("id", .num 1)], [], some 0⟩]⟩
    { searchText := "zz" } [{ key := "id", searchable := false }] {}
    (Or.inr (by intro c hc; simp at hc; rw [hc]))

/-- C3: the `total` returned by `LocalDataSource.load` is the row count
after the filter and search stages and before the paging slice (the sort
stage only permutes), and it does not depend on the page number or page
size in the query state. -/
theorem load_total_before_paging (src : LocalDataSource) (st : QueryState)
    (cols : List Column) (ctx : TableCtx) (p ps : Nat) :
    (src.load { st with page := p, pageSize := ps } cols ctx).total =
      (searchStage st cols ctx (filterStage st ctx src.original)).length := by
  have h0 : src.load { st with page := p, pageSize := ps } cols ctx
      = ⟨_, (src.getFilteredRows { st with page := p, pageSize := ps } cols ctx).length⟩ := rfl
  rw [h0]
  have h1 : src.getFilteredRows { st with page := p, pageSize := ps } cols ctx =
      if (buildSortSpecs st cols).isEmpty then
        searchStage st cols ctx (filterStage st ctx src.original)
      else
        sortRows (buildSortSpecs st cols)
          (searchStage st cols ctx (filterStage st ctx src.original)) := rfl
  rw [h1]
  by_cases hs : (buildSortSpecs st cols).isEmpty
  · rw [if_pos hs]
  · rw [if_neg hs, length_sortRows]

/-- C9: `LocalDataSource.load` is a pure function of the query state,
the columns, the table context and the backing array: two loads over
unchanged backing data return the same rows in the same order and the
same total. -/
theorem load_deterministic (st : QueryState) (cols : List Column) (ctx : TableCtx)
    (src1 src2 : LocalDataSource) (h : src1.original = src2.original) :
    src1.load st cols ctx = src2.load st cols ctx := by
  cases src1
  cases src2
  cases h
  rfl

theorem load_deterministic_witness :
    LocalDataSource.load ⟨[⟨[("id", .num 1)], [], some 0⟩]⟩ {} [{ key := "id" }] {} =
      LocalDataSource.load ⟨[⟨[("id", .num 1)], [], some 0⟩]⟩ {} [{ key := "id" }] {} :=
  load_deterministic {} [{ key := "id" }] {} ⟨[⟨[("id", .num 1)], [], some 0⟩]⟩
    ⟨[⟨[("id", .num 1)], [], some 0⟩]⟩ rfl

/-- C7 (counterexample): the invariant "page ≤ ceil(total/pageSize)" as
stated fails when the running total is 0: after `goToPage(5)` on an
empty table (totalRows = 0, pageSize = 10) the page is 1 but
`ceil(0/10) = 0`. -/
theorem page_bound_claim_fails :
    ¬ (1 ≤ (goToPage ⟨1, 10, true, "", [], 0, []⟩ true 5).page ∧
        (goToPage ⟨1, 10, true, "", [], 0, []⟩ true 5).page ≤
          jsCeilDiv (goToPage ⟨1, 10, true, "", [], 0, []⟩ true 5).totalRows
            (goToPage ⟨1, 10, true, "", [], 0, []⟩ true 5).pageSize) := by
  decide

/-- C7 (amended): after every query-state mutation that could shrink the
result set — `goToPage` (with the paging feature on), `search`, `sortBy`,
either filter-change handler, and the page-size change handler — the
page is ≥ 1 and ≤ max(1, ceil(totalRows/pageSize)); `sortBy`, `goToPage`
and the page-size handler may alternatively leave the state untouched
(unknown/unsortable key, paging disabled, unchanged size). -/
theorem page_mutations_bounded (st : QueryState) (cols : List Column) (p : Int)
    (key text v : String) (append checked : Bool) (ns : Nat)
    (hps : 1 ≤ st.pageSize) :
    (1 ≤ (goToPage st true p).page ∧
      (goToPage st true p).page ≤
        max 1 (jsCeilDiv (goToPage st true p).totalRows (goToPage st true p).pageSize)) ∧
    (1 ≤ (searchMut st text).page ∧
      (searchMut st text).page ≤
        max 1 (jsCeilDiv (searchMut st text).totalRows (searchMut st text).pageSize)) ∧
    (sortBy st cols key append = st ∨
      (1 ≤ (sortBy st cols key append).page ∧
        (sortBy st cols key append).page ≤
          max 1 (jsCeilDiv (sortBy st cols key append).totalRows
            (sortBy st cols key append).pageSize))) ∧
    (1 ≤ (filterChangeBool st key checked).page ∧
      (filterChangeBool st key checked).page ≤
        max 1 (jsCeilDiv (filterChangeBool st key checked).totalRows
          (filterChangeBool st key checked).pageSize)) ∧
    (1 ≤ (filterChangeSelect st key v).page ∧
      (filterChangeSelect st key v).page ≤
        max 1 (jsCeilDiv (filterChangeSelect st key v).totalRows
          (filterChangeSelect st key v).pageSize)) ∧
    (pageSizeChange st ns = st ∨
      (1 ≤ (pageSizeChange st ns).page ∧
        (pageSizeChange st ns).page ≤
          max 1 (jsCeilDiv (pageSizeChange st ns).totalRows (pageSizeChange st ns).pageSize))) := by
  refine ⟨?_, ?_, ?_, ?_, ?_, ?_⟩
  · unfold goToPage
    have hM : 1 ≤ max 1 (jsCeilDiv st.totalRows st.pageSize) := le_max_left _ _
    have h1 : 1 ≤ min (max 1 p) ((max 1 (jsCeilDiv st.totalRows st.pageSize) : Nat) : Int) := by
      refine le_min (le_max_left _ _) ?_
      exact_mod_cast hM
    have h2 : min (max 1 p) ((max 1 (jsCeilDiv st.totalRows st.pageSize) : Nat) : Int) ≤
        ((max 1 (jsCeilDiv st.totalRows st.pageSize) : Nat) : Int) := min_le_right _ _
    simp only [not_true, if_false]
    split
    · rename_i heq
      constructor
      · omega
      · omega
    · constructor
      · simp only []
        omega
      · simp only []
        omega
  · exact ⟨le_refl 1, le_max_left _ _⟩
  · unfold sortBy
    rcases h : cols.find? (fun c => c.sortable ∧ c.key = key) with _ | c
    · rw [h]
      exact Or.inl rfl
    · rw [h]
      exact Or.inr ⟨le_refl 1, le_max_left _ _⟩
  · exact ⟨le_refl 1, le_max_left _ _⟩
  · exact ⟨le_refl 1, le_max_left _ _⟩
  · unfold pageSizeChange
    split
    · exact Or.inl rfl
    · exact Or.inr ⟨le_refl 1, le_max_left _ _⟩

theorem page_mutations_bounded_witness :
    1 ≤ (goToPage ⟨1, 10, true, "", [], 35, []⟩ true 9).page ∧
    (goToPage ⟨1, 10, true, "", [], 35, []⟩ true 9).page ≤
      max 1 (jsCeilDiv (goToPage ⟨1, 10, true, "", [], 35, []⟩ true 9).totalRows
        (goToPage ⟨1, 10, true, "", [], 35, []⟩ true 9).pageSize) :=
  (page_mutations_bounded ⟨1, 10, true, "", [], 35, []⟩ [] 9 "" "" "" false false 5
    (by decide)).1

/-- C5: the constructor's `childRows` normalization drops the documented
`lazyLoad` option, so `this.childRows.lazyLoad` is always undefined and
`expandChildRows` on a lazy-configured table with an empty child slot
takes the non-lazy branch: it performs zero child fetches and leaves the
child slot empty, where the README, the method's own JSDoc and the claim
require exactly one fetch whose result is cached in the slot. -/
theorem expand_lazyLoad_dropped :
    (normalizeChildRows { enabled := true, lazyLoad := true, dataKey := some "children" }).lazyLoad
      = false ∧
    expandChildRows
        (normalizeChildRows { enabled := true, lazyLoad := true, dataKey := some "children" })
        ⟨true, true⟩ (fun _ => [[("c", .num 1)]])
        ⟨[("p1", ⟨[("id", .str "p1")], [], some 0⟩)], []⟩ "p1" =
      some (⟨[("p1", ⟨[("id", .str "p1")], [], some 0⟩)], ["p1"]⟩, 0) :=
  ⟨rfl, by decide⟩

theorem mem_insSorted (cmp : α → α → Int) (x : α) (l : List α) (z : α) :
    z ∈ insSorted cmp x l ↔ z = x ∨ z ∈ l := by
  induction l with
  | nil => simp [insSorted]
  | cons y t ih =>
    simp only [insSorted]
    split
    · simp only [List.mem_cons, ih]
      tauto
    · split <;> simp only [List.mem_cons] <;> tauto

theorem mem_foldl_insSorted (cmp : α → α → Int) :
    ∀ (xs acc : List α) (z : α),
      z ∈ xs.foldl (fun acc x => insSorted cmp x acc) acc → z ∈ acc ∨ z ∈ xs := by
  intro xs
  induction xs with
  | nil => intro acc z h; exact Or.inl h
  | cons x t ih =>
    intro acc z h
    simp only [List.foldl_cons] at h
    rcases ih (insSorted cmp x acc) z h with h' | h'
    · rcases (mem_insSorted cmp x acc z).mp h' with h'' | h''
      · exact Or.inr (by simp [h''])
      · exact Or.inl h''
    · exact Or.inr (List.mem_cons_of_mem _ h')

theorem cmpCharList_antisymm : ∀ (l1 l2 : List Char), cmpCharList l2 l1 = - cmpCharList l1 l2 := by
  intro l1
  induction l1 with
  | nil =>
    intro l2
    cases l2 <;> simp [cmpCharList]
  | cons a as ih =>
    intro l2
    cases l2 with
    | nil => simp [cmpCharList]
    | cons b bs =>
      simp only [cmpCharList]
      rcases Nat.lt_trichotomy a.toNat b.toNat with h | h | h
      · rw [if_neg (Nat.lt_asymm h), if_pos h, if_pos h]
        norm_num
      · simp only [h, lt_self_iff_false, if_false]
        exact ih bs
      · rw [if_pos h, if_neg (Nat.lt_asymm h), if_pos h]

theorem cmpStr_antisymm (s t : String) : cmpStr t s = - cmpStr s t :=
  cmpCharList_antisymm s.data t.data

theorem sublist_map_exists {α β : Type} {f : α → β} :
    ∀ {l : List α} {l' : List β}, l'.Sublist (l.map f) →
      ∃ l'' : List α, l''.Sublist l ∧ l' = l''.map f := by
  intro l
  induction l with
  | nil =>
    intro l' h
    simp only [List.map_nil, List.sublist_nil] at h
    exact ⟨[], List.Sublist.refl [], by simp [h]⟩
  | cons x t ih =>
    intro l' h
    simp only [List.map_cons] at h
    cases h with
    | cons _ h' =>
      obtain ⟨l'', hs, he⟩ := ih h'
      exact ⟨l'', hs.cons x, he⟩
    | cons₂ _ h' =>
      obtain ⟨l'', hs, he⟩ := ih h'
      exact ⟨x :: l'', hs.cons₂ x, by simp [he]⟩

theorem filterStage_sublist (st : QueryState) (ctx : TableCtx) (rows : List Row) :
    (filterStage st ctx rows).Sublist rows := by
  unfold filterStage
  split
  · exact List.filter_sublist rows
  · exact List.Sublist.refl rows

theorem searchStage_sublist (st : QueryState) (cols : List Column) (ctx : TableCtx)
    (rows : List Row) : (searchStage st cols ctx rows).Sublist rows := by
  by_cases h : searchActive st (cols.filter (fun c => c.searchable))
  · have he : searchStage st cols ctx rows =
        rows.filter (rowMatchesSearch ctx st (cols.filter (fun c => c.searchable))) := by
      simp only [searchStage]
      rw [if_pos h]
    rw [he]
    exact List.filter_sublist rows
  · have he : searchStage st cols ctx rows = rows := by
      simp only [searchStage]
      rw [if_neg h]
    rw [he]

/-- C1 (counterexample): the claim as stated — equal-comparing rows
always appear in ascending original-index order — fails once rows that
already own `__dt_index` values are re-supplied in a different order.
Backing array `[B(idx 2), C(idx 1), A(idx 0)]` (first observed as
`[A, C, B]`) with `A.val = 1699920000000` (a number), `B.val =
"2023-11-14"` (`Date.parse` gives 1699920000000, and `String(keyA.v) =
String(keyB.v)`, so A and B compare equal under the single `asc` spec)
and `C.val = 999`: sorting puts B (index 2) before A (index 0), because
B compares below C as strings while A compares above C numerically. -/
theorem local_sort_stability_claim_fails :
    cmpKeyList
        (mkKeyed (buildSortSpecs { sortOrders := [⟨"val", "asc"⟩] } [{ key := "val" }])
          ⟨[("val", .str "2023-11-14")], [], some 2⟩).keys
        (mkKeyed (buildSortSpecs { sortOrders := [⟨"val", "asc"⟩] } [{ key := "val" }])
          ⟨[("val", .num 1699920000000)], [], some 0⟩).keys = 0 ∧
    [(⟨[("val", .str "2023-11-14")], [], some 2⟩ : Row),
      (⟨[("val", .num 1699920000000)], [], some 0⟩ : Row)].Sublist
      (LocalDataSource.getFilteredRows
        (LocalDataSource.setData
          [⟨[("val", .str "2023-11-14")], [], some 2⟩,
           ⟨[("val", .num 999)], [], some 1⟩,
           ⟨[("val", .num 1699920000000)], [], some 0⟩])
        { sortOrders := [⟨"val", "asc"⟩] } [{ key := "val" }] {}) ∧
    ¬ (idxVal ⟨[("val", .str "2023-11-14")], [], some 2⟩ ≤
        idxVal ⟨[("val", .num 1699920000000)], [], some 0⟩) := by
  decide

theorem specStep_neg_antisymm (d : Int) (ka kb : SKey) :
    specStep d kb ka = - specStep d ka kb := by
  cases ka <;> cases kb <;> simp only [specStep] <;>
    first
    | ring1
    | (rw [cmpStr_antisymm]; ring1)

theorem cmpKeyList_neg_antisymm :
    ∀ (k1 k2 : List (Int × SKey)), k1.map Prod.fst = k2.map Prod.fst →
      cmpKeyList k2 k1 = - cmpKeyList k1 k2 := by
  intro k1
  induction k1 with
  | nil =>
    intro k2 hd
    cases k2 with
    | nil => norm_num [cmpKeyList]
    | cons p t => simp at hd
  | cons p1 t1 ih =>
    intro k2 hd
    cases k2 with
    | nil => simp at hd
    | cons p2 t2 =>
      obtain ⟨d1, ka⟩ := p1
      obtain ⟨d2, kb⟩ := p2
      simp only [List.map_cons, List.cons.injEq] at hd
      obtain ⟨hd12, hdt⟩ := hd
      subst hd12
      simp only [cmpKeyList]
      have hstep := specStep_neg_antisymm d1 ka kb
      by_cases hs : specStep d1 ka kb = 0
      · have hs2 : specStep d1 kb ka = 0 := by
          rw [hstep, hs]
          norm_num
        rw [if_pos hs2, if_pos hs]
        exact ih t2 hdt
      · have hs2 : specStep d1 kb ka ≠ 0 := by
          rw [hstep]
          exact fun hcon => hs (neg_eq_zero.mp hcon)
        rw [if_neg hs2, if_neg hs]
        exact hstep

theorem cmpKeyed_neg_antisymm (x y : Keyed)
    (hal : x.keys.map Prod.fst = y.keys.map Prod.fst) :
    cmpKeyed y x = - cmpKeyed x y := by
  have hneg := cmpKeyList_neg_antisymm x.keys y.keys hal
  simp only [cmpKeyed]
  by_cases hc : cmpKeyList x.keys y.keys = 0
  · have hc2 : cmpKeyList y.keys x.keys = 0 := by
      rw [hneg, hc]
      norm_num
    rw [if_pos hc2, if_pos hc]
    ring
  · have hc2 : cmpKeyList y.keys x.keys ≠ 0 := by
      rw [hneg]
      exact fun hcon => hc (neg_eq_zero.mp hcon)
    rw [if_neg hc2, if_neg hc]
    exact hneg

theorem insSorted_pairwise {α : Type} (cmp : α → α → Int) (P : α → Prop)
    (htot : ∀ a b, P a → P b → cmp a b ≤ 0 ∨ cmp b a ≤ 0)
    (htrans : ∀ a b c, P a → P b → P c → cmp a b ≤ 0 → cmp b c ≤ 0 → cmp a c ≤ 0) :
    ∀ (l : List α) (x : α), P x → (∀ z ∈ l, P z) →
      l.Pairwise (fun a b => cmp a b ≤ 0) →
      (insSorted cmp x l).Pairwise (fun a b => cmp a b ≤ 0) := by
  intro l
  induction l with
  | nil =>
    intro x _ _ _
    simp [insSorted]
  | cons y t ih =>
    intro x hPx hPl hsort
    rw [List.pairwise_cons] at hsort
    obtain ⟨hy, ht⟩ := hsort
    simp only [insSorted]
    by_cases h1 : t.any (fun z => cmp z x ≤ 0)
    · rw [if_pos h1, List.pairwise_cons]
      obtain ⟨z, hz, hzx⟩ : ∃ z ∈ t, cmp z x ≤ 0 := by simpa using h1
      constructor
      · intro w hw
        rcases (mem_insSorted cmp x t w).mp hw with rfl | hw'
        · exact htrans y z w (hPl y (List.mem_cons_self y t))
            (hPl z (List.mem_cons_of_mem y hz)) hPx (hy z hz) hzx
        · exact hy w hw'
      · exact ih x hPx (fun z' hz' => hPl z' (List.mem_cons_of_mem y hz')) ht
    · have hall : ∀ z ∈ t, 0 < cmp z x := by
        simpa using h1
      rw [if_neg h1]
      by_cases h2 : cmp y x ≤ 0
      · rw [if_pos h2, List.pairwise_cons]
        constructor
        · intro w hw
          rcases List.mem_cons.mp hw with rfl | hw'
          · exact h2
          · exact hy w hw'
        · rw [List.pairwise_cons]
          refine ⟨?_, ht⟩
          intro w hw
          rcases htot x w hPx (hPl w (List.mem_cons_of_mem y hw)) with h' | h'
          · exact h'
          · exact absurd h' (not_le.mpr (hall w hw))
      · rw [if_neg h2, List.pairwise_cons]
        constructor
        · intro w hw
          rcases List.mem_cons.mp hw with rfl | hw'
          · rcases htot x w hPx (hPl w (List.mem_cons_self w t)) with h' | h'
            · exact h'
            · exact absurd h' h2
          · rcases htot x w hPx (hPl w (List.mem_cons_of_mem y hw')) with h' | h'
            · exact h'
            · exact absurd h' (not_le.mpr (hall w hw'))
        · exact List.pairwise_cons.mpr ⟨hy, ht⟩

theorem foldl_insSorted_pairwise {α : Type} (cmp : α → α → Int) (P : α → Prop)
    (htot : ∀ a b, P a → P b → cmp a b ≤ 0 ∨ cmp b a ≤ 0)
    (htrans : ∀ a b c, P a → P b → P c → cmp a b ≤ 0 → cmp b c ≤ 0 → cmp a c ≤ 0) :
    ∀ (xs acc : List α), (∀ z ∈ xs, P z) → (∀ z ∈ acc, P z) →
      acc.Pairwise (fun a b => cmp a b ≤ 0) →
      (xs.foldl (fun acc x => insSorted cmp x acc) acc).Pairwise
        (fun a b => cmp a b ≤ 0) := by
  intro xs
  induction xs with
  | nil =>
    intro acc _ _ h
    simpa using h
  | cons x t ih =>
    intro acc hxs hacc hsort
    simp only [List.foldl_cons]
    refine ih (insSorted cmp x acc) (fun z hz => hxs z (List.mem_cons_of_mem x hz)) ?_ ?_
    · intro z hz
      rcases (mem_insSorted cmp x acc z).mp hz with rfl | hz'
      · exact hxs z (List.mem_cons_self z t)
      · exact hacc z hz'
    · exact insSorted_pairwise cmp P htot htrans acc x (hxs x (List.mem_cons_self x t))
        hacc hsort

/-- C1 (amended): the sort comparator of `getFilteredRows` is not
consistent in general — two values classified `num` and `date` with equal
stringifications compare equal yet can order oppositely against a third
row (see `local_sort_stability_claim_fails`) — and ECMAScript leaves the
sort order implementation-defined for inconsistent comparators, so no
unconditional stability guarantee exists.  When the comparator *is*
consistent on the backing rows (transitive; it is total by construction,
`cmpKeyed_neg_antisymm`), every conformant `Array.prototype.sort` returns
the same output, namely one sorted by the comparator; then any two output
rows whose resolved sort values compare equal under every active spec are
ordered by the original-index tie-break, i.e. appear in ascending
original-index order.  The proof uses only that the sort stage's output
is pairwise-sorted by the comparator, which holds for every conformant
resolution, not just the insertion sort modelled here. -/
theorem local_sort_stable (src : LocalDataSource) (st : QueryState) (cols : List Column)
    (ctx : TableCtx) (a b : Row)
    (hconsistent : ∀ r1 ∈ src.original, ∀ r2 ∈ src.original, ∀ r3 ∈ src.original,
      cmpKeyed (mkKeyed (buildSortSpecs st cols) r1) (mkKeyed (buildSortSpecs st cols) r2) ≤ 0 →
      cmpKeyed (mkKeyed (buildSortSpecs st cols) r2) (mkKeyed (buildSortSpecs st cols) r3) ≤ 0 →
      cmpKeyed (mkKeyed (buildSortSpecs st cols) r1) (mkKeyed (buildSortSpecs st cols) r3) ≤ 0)
    (hspecs : buildSortSpecs st cols ≠ [])
    (hpair : [a, b].Sublist (src.getFilteredRows st cols ctx))
    (htie : cmpKeyList (mkKeyed (buildSortSpecs st cols) a).keys
      (mkKeyed (buildSortSpecs st cols) b).keys = 0) :
    idxVal a ≤ idxVal b := by
  have hchar : src.getFilteredRows st cols ctx =
      if (buildSortSpecs st cols).isEmpty then
        searchStage st cols ctx (filterStage st ctx src.original)
      else sortRows (buildSortSpecs st cols)
        (searchStage st cols ctx (filterStage st ctx src.original)) := rfl
  rw [hchar] at hpair
  have hemp : (buildSortSpecs st cols).isEmpty = false := by
    cases hsp : buildSortSpecs st cols with
    | nil => exact absurd hsp hspecs
    | cons p t => rfl
  rw [if_neg (by simp [hemp])] at hpair
  have hsub2 : (searchStage st cols ctx (filterStage st ctx src.original)).Sublist
      src.original :=
    (searchStage_sublist st cols ctx _).trans (filterStage_sublist st ctx _)
  unfold sortRows at hpair
  obtain ⟨l'', hl', heq⟩ := sublist_map_exists hpair
  have h2 : ∃ ka kb, l'' = [ka, kb] ∧ a = ka.row ∧ b = kb.row := by
    rcases l'' with _ | ⟨ka, _ | ⟨kb, _ | ⟨k3, l3⟩⟩⟩
    · simp at heq
    · simp at heq
    · simp only [List.map_cons, List.map_nil, List.cons.injEq, and_true] at heq
      exact ⟨ka, kb, rfl, heq.1, heq.2⟩
    · simp at heq
  obtain ⟨ka, kb, rfl, hka, hkb⟩ := h2
  have hmemka : ka ∈ (searchStage st cols ctx (filterStage st ctx src.original)).map
      (mkKeyed (buildSortSpecs st cols)) := by
    rcases mem_foldl_insSorted cmpKeyed _ [] ka
      (hl'.subset (List.mem_cons_self ka [kb])) with h' | h'
    · exact absurd h' (List.not_mem_nil ka)
    · exact h'
  have hmemkb : kb ∈ (searchStage st cols ctx (filterStage st ctx src.original)).map
      (mkKeyed (buildSortSpecs st cols)) := by
    rcases mem_foldl_insSorted cmpKeyed _ [] kb
      (hl'.subset (List.mem_cons_of_mem ka (List.mem_cons_self kb []))) with h' | h'
    · exact absurd h' (List.not_mem_nil kb)
    · exact h'
  have halign : ∀ k : Keyed,
      k ∈ (searchStage st cols ctx (filterStage st ctx src.original)).map
        (mkKeyed (buildSortSpecs st cols)) →
      k.keys.map Prod.fst = (buildSortSpecs st cols).map (fun sp => sp.dir) := by
    intro k hk
    obtain ⟨r, _, hr⟩ := List.mem_map.mp hk
    rw [← hr]
    simp [mkKeyed, List.map_map]
  -- the sort output is pairwise-sorted by the comparator
  have hsortedOut : (((searchStage st cols ctx (filterStage st ctx src.original)).map
      (mkKeyed (buildSortSpecs st cols))).foldl
        (fun acc x => insSorted cmpKeyed x acc) []).Pairwise
      (fun p q => cmpKeyed p q ≤ 0) := by
    refine foldl_insSorted_pairwise cmpKeyed
      (fun k => k ∈ (searchStage st cols ctx (filterStage st ctx src.original)).map
        (mkKeyed (buildSortSpecs st cols))) ?_ ?_ _ [] (fun _ hz => hz)
      (fun z hz => absurd hz (List.not_mem_nil z)) (by simp)
    · intro p q hp hq
      have h := cmpKeyed_neg_antisymm p q (by rw [halign p hp, halign q hq])
      omega
    · intro p q r hp hq hr hpq hqr
      obtain ⟨r1, hr1, hfr1⟩ := List.mem_map.mp hp
      obtain ⟨r2, hr2, hfr2⟩ := List.mem_map.mp hq
      obtain ⟨r3, hr3, hfr3⟩ := List.mem_map.mp hr
      subst hfr1
      subst hfr2
      subst hfr3
      exact hconsistent r1 (hsub2.subset hr1) r2 (hsub2.subset hr2) r3 (hsub2.subset hr3)
        hpq hqr
  have hle : cmpKeyed ka kb ≤ 0 := by
    have hp2 := hsortedOut.sublist hl'
    exact (List.pairwise_cons.mp hp2).1 kb (List.mem_singleton.mpr rfl)
  have hka' : ka = mkKeyed (buildSortSpecs st cols) a := by
    obtain ⟨r, _, hr⟩ := List.mem_map.mp hmemka
    subst hka
    rw [← hr]
    rfl
  have hkb' : kb = mkKeyed (buildSortSpecs st cols) b := by
    obtain ⟨r, _, hr⟩ := List.mem_map.mp hmemkb
    subst hkb
    rw [← hr]
    rfl
  rw [hka', hkb'] at hle
  have hval : cmpKeyed (mkKeyed (buildSortSpecs st cols) a)
      (mkKeyed (buildSortSpecs st cols) b) = idxVal a - idxVal b := by
    simp only [cmpKeyed, htie, if_pos]
    rfl
  rw [hval] at hle
  omega

theorem local_sort_stable_witness :
    idxVal ⟨[("name", .str "Ann"), ("age", .num 25)], [], some 1⟩ ≤
      idxVal ⟨[("name", .str "Cid"), ("age", .num 25)], [], some 2⟩ :=
  local_sort_stable
    ⟨[⟨[("name", .str "Bob"), ("age", .num 30)], [], some 0⟩,
      ⟨[("name", .str "Ann"), ("age", .num 25)], [], some 1⟩,
      ⟨[("name", .str "Cid"), ("age", .num 25)], [], some 2⟩]⟩
    { sortOrders := [⟨"age", "asc"⟩] } [{ key := "name" }, { key := "age" }] {}
    ⟨[("name", .str "Ann"), ("age", .num 25)], [], some 1⟩
    ⟨[("name", .str "Cid"), ("age", .num 25)], [], some 2⟩
    (by decide) (fun h => absurd (congrArg List.length h) (by decide)) (by decide) (by decide)
